import Mathlib

/-!
Verification of the upload service (`app.py`): data-URL decoding, sequential
file naming, identifier extraction from filenames, proxy-aware base-URL
resolution, and the upload orchestration pipeline.

The filesystem is modelled as the list of file names occupying the target
directory.  Machine strings are Lean `String`s, bytes are `Nat`s bounded by
256.  Fallible steps return `Except UploadError`.
-/

namespace UploadService

/-- The error taxonomy of the service, one constructor per distinct
`HTTPException` raised by `app.py`. -/
inductive UploadError where
  | missingFields
  | invalidDataUrl
  | mimeNotAllowed
  | invalidBase64
  | payloadTooLarge
  | invalidRegistro
  | invalidPonto
  | nameSpaceExhausted
  | storageWriteFailed
deriving DecidableEq

/-- HTTP status code attached to each error (`status_code=` in `app.py`). -/
def statusCode : UploadError → Nat
  | .missingFields => 400
  | .invalidDataUrl => 400
  | .mimeNotAllowed => 400
  | .invalidBase64 => 400
  | .payloadTooLarge => 413
  | .invalidRegistro => 400
  | .invalidPonto => 400
  | .nameSpaceExhausted => 500
  | .storageWriteFailed => 500

/-- Python's `str.lower()` restricted to the ASCII range, applied
characterwise. -/
def lowerStr (s : String) : String :=
  String.mk (s.toList.map Char.toLower)

/-- Python's `str.rstrip("/")`: remove every trailing `'/'`. -/
def rstripSlash (s : String) : String :=
  String.mk ((s.toList.reverse.dropWhile (fun c => c = '/')).reverse)

/-- `":" in host` for a Python string. -/
def containsColon (s : String) : Bool :=
  s.toList.any (fun c => c = ':')

/-- Consume an expected literal character sequence; return the remainder on
success. -/
def stripLit : List Char → List Char → Option (List Char)
  | [], rest => some rest
  | _ :: _, [] => none
  | p :: ps, c :: cs => if c = p then stripLit ps cs else none

/-! ### Base64 (`base64.b64encode` / `base64.b64decode(..., validate=True)`) -/

/-- The standard base64 alphabet. -/
def b64Alphabet : List Char :=
  "ABCDEFGHIJKLMNOPQRSTUVWXYZabcdefghijklmnopqrstuvwxyz0123456789+/".toList

/-- Character for a 6-bit group. -/
def b64Char (i : Nat) : Char :=
  b64Alphabet.getD i '?'

/-- Index of a character in the base64 alphabet, `none` for non-alphabet
characters. -/
def b64Index? (c : Char) : Option Nat :=
  b64Alphabet.findIdx? (fun x => x = c)

/-- Standard base64 encoding of a byte sequence (no line breaks), as
`base64.b64encode` produces. -/
def b64encodeList : List Nat → List Char
  | [] => []
  | [a] => [b64Char (a / 4), b64Char (a % 4 * 16), '=', '=']
  | [a, b] => [b64Char (a / 4), b64Char (a % 4 * 16 + b / 16), b64Char (b % 16 * 4), '=']
  | a :: b :: c :: rest =>
      b64Char (a / 4) :: b64Char (a % 4 * 16 + b / 16) ::
      b64Char (b % 16 * 4 + c / 64) :: b64Char (c % 64) :: b64encodeList rest

/-- Strict base64 decoding: the input must consist of whole 4-character
groups over the alphabet, with `=` padding only at the very end
(`base64.b64decode(..., validate=True)` on canonical input; any other input
raises `binascii.Error`). -/
def b64decodeList : List Char → Option (List Nat)
  | [] => some []
  | w :: x :: y :: z :: rest =>
    match b64Index? w, b64Index? x with
    | some i, some j =>
      if y = '=' ∧ z = '=' ∧ rest = [] then
        some [i * 4 + j / 16]
      else
        match b64Index? y with
        | some k =>
          if z = '=' ∧ rest = [] then
            some [i * 4 + j / 16, j % 16 * 16 + k / 4]
          else
            match b64Index? z with
            | some l =>
              (b64decodeList rest).map
                (fun bs => (i * 4 + j / 16) :: (j % 16 * 16 + k / 4) :: (k % 4 * 64 + l) :: bs)
            | none => none
        | none => none
    | _, _ => none
  | _ => none

/-! ### `DATA_URL_RE` and `parse_data_url` -/

/-- Characters matched by the regex class `[\w\-\.+/]` (ASCII range of `\w`). -/
def isMimeChar (c : Char) : Bool :=
  c.isAlphanum || c = '_' || c = '-' || c = '.' || c = '+' || c = '/'

/-- The span `.+` may match before `$` either the whole remainder or, when
the string ends in a newline, everything but that newline. -/
def dollarBody (tail : List Char) : List Char :=
  if tail.getLast? = some (Char.ofNat 10) then tail.dropLast else tail

/-- Model of `DATA_URL_RE.match`: the pattern
`^data:(?P<mime>[\w\-\.+/]+);base64,(?P<b64>.+)$`.  The mime group is the
maximal run of class characters (`;` is outside the class, so greedy matching
with backtracking is equivalent to maximal munch); `.+$` demands a nonempty
remainder free of newlines, where `$` also matches just before one trailing
newline. -/
def dataUrlMatch (s : String) : Option (String × String) :=
  match stripLit "data:".toList s.toList with
  | none => none
  | some rest =>
    if rest.takeWhile isMimeChar = [] then none
    else
      match stripLit ";base64,".toList (rest.dropWhile isMimeChar) with
      | none => none
      | some tail =>
        if dollarBody tail = [] ∨ (dollarBody tail).any (fun c => c = Char.ofNat 10) then
          none
        else some (String.mk (rest.takeWhile isMimeChar), String.mk (dollarBody tail))

/-- `ALLOWED_MIMES`: allow-listed MIME types with their canonical extensions. -/
def ALLOWED_MIMES : List (String × String) :=
  [("image/jpeg", "jpg"), ("image/png", "png"), ("image/webp", "webp")]

/-- `parse_data_url` from `app.py`: 50 MiB raw-string pre-check, regex match,
MIME allow-list check on the lower-cased mime, strict base64 decoding, and the
`MAX_SIZE_MB` ceiling on the decoded bytes. -/
def parse_data_url (maxSizeMB : Nat) (dataUrl : String) :
    Except UploadError (String × List Nat) :=
  if dataUrl.length > 50 * 1024 * 1024 then .error .invalidDataUrl
  else
    match dataUrlMatch dataUrl with
    | none => .error .invalidDataUrl
    | some (mime0, b64) =>
      match ALLOWED_MIMES.lookup (lowerStr mime0) with
      | none => .error .mimeNotAllowed
      | some _ =>
        match b64decodeList b64.toList with
        | none => .error .invalidBase64
        | some binary =>
          if binary.length > maxSizeMB * 1024 * 1024 then .error .payloadTooLarge
          else .ok (lowerStr mime0, binary)

/-- Builds the data URL `"data:" ++ m ++ ";base64," ++ base64(bytes)`. -/
def mkDataUrl (m : String) (bytes : List Nat) : String :=
  "data:" ++ m ++ ";base64," ++ String.mk (b64encodeList bytes)

/-! ### `get_base_url` -/

/-- The per-request inputs consulted by `get_base_url`: the three
`X-Forwarded-*` headers (absent header = `none`), `request.url.scheme` and
`str(request.base_url)`. -/
structure ReqCtx where
  xfProto : Option String
  xfHost : Option String
  xfPort : Option String
  urlScheme : String
  requestBaseUrl : String
deriving DecidableEq

/-- Python truthiness of `headers.get(...)`: present and nonempty. -/
def truthy : Option String → Bool
  | some s => s ≠ ""
  | none => false

/-- Python `a or b` for an optional string `a`. -/
def pyOr (o : Option String) (d : String) : String :=
  match o with
  | some s => if s = "" then d else s
  | none => d

/-- `get_base_url` from `app.py`.  `envBase` models the `BASE_URL`
environment variable read at startup. -/
def get_base_url (envBase : Option String) (r : ReqCtx) : String :=
  if truthy envBase then rstripSlash (envBase.getD "")
  else if truthy r.xfHost then
    let scheme := pyOr r.xfProto r.urlScheme
    let host := r.xfHost.getD ""
    let port := r.xfPort.getD ""
    let host :=
      if truthy r.xfPort && !containsColon host && !(["80", "443"].contains port) then
        if !((scheme = "http" && port = "80") || (scheme = "https" && port = "443")) then
          host ++ ":" ++ port
        else host
      else host
    scheme ++ "://" ++ host
  else rstripSlash r.requestBaseUrl

/-! ### `next_sequential_name` (sequential model)

In a single-request execution the probe file created with mode `"x"` is
unlinked before the candidate is returned, so the directory listing observed
by the loop never changes during the call; the loop reduces to a pure search
over the listing `fs`. -/

/-- The candidate name `f"{base}-{n}.{ext}"`. -/
def candidateName (bp : String) (n : Nat) (ext : String) : String :=
  bp ++ "-" ++ toString n ++ "." ++ ext

/-- The probe loop of `next_sequential_name`: `fuel` is the number of
remaining attempts out of `max_attempts = 10000`. -/
def nextSeqAux (fs : List String) (bp ext : String) : Nat → Nat → Option String
  | _, 0 => none
  | n, fuel + 1 =>
    if candidateName bp n ext ∈ fs then nextSeqAux fs bp ext (n + 1) fuel
    else some (candidateName bp n ext)

/-- `next_sequential_name(dir, base, ext, start)`: starts at
`max(1, int(start))` and raises HTTP 500 after 10000 failed attempts. -/
def next_sequential_name (fs : List String) (bp ext : String) (start : Int) :
    Except UploadError String :=
  match nextSeqAux fs bp ext (max 1 start).toNat 10000 with
  | some c => .ok c
  | none => .error .nameSpaceExhausted

/-! ### Filename sanitization and `FILENAME_RE` -/

/-- `os.path.basename`: the segment after the last `'/'`. -/
def basenameOf (s : String) : String :=
  String.mk ((s.toList.reverse.takeWhile (fun c => c ≠ '/')).reverse)

/-- Characters kept by `re.sub(r'[^\w\-_\.]', '', ...)` (ASCII range of
`\w`). -/
def isSafeChar (c : Char) : Bool :=
  c.isAlphanum || c = '_' || c = '-' || c = '.'

/-- The sanitization block of `upload`: basename, dangerous-character
filtering, and the `upload.{ext}` fallback when nothing survives. -/
def sanitizeFilename (ext : String) (raw : String) : String :=
  let cleaned := String.mk ((basenameOf raw).toList.filter isSafeChar)
  if cleaned = "" then "upload." ++ ext else cleaned

/-- Digit-string value, as Python `int()` on a digit group. -/
def natOfDigits (ds : List Char) : Nat :=
  ds.foldl (fun a c => a * 10 + (c.toNat - '0'.toNat)) 0

/-- Model of `FILENAME_RE.match`: the anchored pattern
`^(?P<registro>\d+)-(?P<ponto>\d+)\.(?P<ext>jpg|jpeg|png|webp)$`.  Both digit
groups exclude `-` and `.`, so greedy matching is maximal munch. -/
def matchIdPattern (s : String) : Option (Nat × Nat × String) :=
  let cs := s.toList
  let d1 := cs.takeWhile Char.isDigit
  if d1 = [] then none
  else
    match cs.dropWhile Char.isDigit with
    | '-' :: r2 =>
      let d2 := r2.takeWhile Char.isDigit
      if d2 = [] then none
      else
        match r2.dropWhile Char.isDigit with
        | '.' :: extCs =>
          if String.mk extCs ∈ (["jpg", "jpeg", "png", "webp"] : List String) then
            some (natOfDigits d1, natOfDigits d2, String.mk extCs)
          else none
        | _ => none
    | _ => none

/-- The identifier-extraction block of `upload`: a filename-derived value is
used only when the caller supplied none. -/
def resolveIds (fname : String) (registro ponto : Option Int) :
    Option Int × Option Int :=
  match matchIdPattern (lowerStr fname) with
  | some (r, p, _) =>
    ((match registro with
      | some x => some x
      | none => some (r : Int)),
     (match ponto with
      | some x => some x
      | none => some (p : Int)))
  | none => (registro, ponto)

/-! ### The upload pipeline -/

/-- The request body of `POST /upload` (`UploadIn` in `app.py`). -/
structure UploadIn where
  filename : String
  data_url : String
  registro : Option Int
  ponto : Option Int
deriving DecidableEq

/-- The check `ponto is not None and ponto < 0`. -/
def pontoNeg : Option Int → Bool
  | some q => q < 0
  | none => false

/-- The check `registro is not None` followed by `registro < 0` inside that
branch. -/
def registroNeg : Option Int → Bool
  | some r => r < 0
  | none => false

/-- The storage base name: `str(registro)`, or the uuid hex for the `misc`
branch. -/
def storageBase (uuidHex : String) : Option Int → String
  | some r => toString r
  | none => uuidHex

/-- The per-registro directory name: `"misc"` or `str(registro)`. -/
def storageDir (registro : Option Int) : String :=
  match registro with
  | none => "misc"
  | some r => toString r

/-- The response body of a successful upload. -/
structure UploadResult where
  link : String
  mime : String
  size : Nat
  registro : Option Int
  ponto : Option Int
  path : String
  filename : String
deriving DecidableEq

/-- The name-resolution block of `upload` (lines 239-248): with a known
`ponto` the exact name is tried first, falling back to the sequential namer
from `ponto + 1` when it is taken; without one the namer starts from 1. -/
def resolveFinalName (fs : List String) (bp ext : String) (ponto : Option Int) :
    Except UploadError String :=
  match ponto with
  | some pt =>
    if (bp ++ "-" ++ toString pt ++ "." ++ ext) ∈ fs then
      next_sequential_name fs bp ext (pt + 1)
    else .ok (bp ++ "-" ++ toString pt ++ "." ++ ext)
  | none => next_sequential_name fs bp ext 1

/-- Pure part of `upload`: everything before the byte write.  Returns the
decoded mime and bytes, the resolved identifiers, the storage prefix and the
final name.  Directory creation is not a file write and the namer's probe
files are net-zero, so `fs` is read but unchanged here. -/
def uploadCore (maxSizeMB : Nat) (fs : List String) (uuidHex : String) (p : UploadIn) :
    Except UploadError (String × List Nat × Option Int × Option Int × String × String) :=
  if p.filename = "" ∨ p.data_url = "" then .error .missingFields
  else
    match parse_data_url maxSizeMB p.data_url with
    | .error e => .error e
    | .ok (mime, binary) =>
      if registroNeg (resolveIds (sanitizeFilename ((ALLOWED_MIMES.lookup mime).getD "")
          p.filename) p.registro p.ponto).1 then .error .invalidRegistro
      else if pontoNeg (resolveIds (sanitizeFilename ((ALLOWED_MIMES.lookup mime).getD "")
          p.filename) p.registro p.ponto).2 then .error .invalidPonto
      else
        match resolveFinalName fs
            (storageBase uuidHex (resolveIds (sanitizeFilename
              ((ALLOWED_MIMES.lookup mime).getD "") p.filename) p.registro p.ponto).1)
            ((ALLOWED_MIMES.lookup mime).getD "")
            (resolveIds (sanitizeFilename ((ALLOWED_MIMES.lookup mime).getD "")
              p.filename) p.registro p.ponto).2 with
        | .error e => .error e
        | .ok finalName =>
          .ok (mime, binary,
            (resolveIds (sanitizeFilename ((ALLOWED_MIMES.lookup mime).getD "")
              p.filename) p.registro p.ponto).1,
            (resolveIds (sanitizeFilename ((ALLOWED_MIMES.lookup mime).getD "")
              p.filename) p.registro p.ponto).2,
            storageBase uuidHex (resolveIds (sanitizeFilename
              ((ALLOWED_MIMES.lookup mime).getD "") p.filename) p.registro p.ponto).1,
            finalName)

/-- `upload` from `app.py`.  `writeOk` models whether the final
`open(full_path, "wb").write(binary)` succeeds; `open` creates the file
before the write can fail, and the `except OSError` branch performs no
cleanup, so the name enters the directory either way. -/
def upload (maxSizeMB : Nat) (envBase : Option String) (ctx : ReqCtx)
    (fs : List String) (uuidHex : String) (writeOk : Bool) (p : UploadIn) :
    Except UploadError UploadResult × List String :=
  match uploadCore maxSizeMB fs uuidHex p with
  | .error e => (.error e, fs)
  | .ok (mime, binary, registro, ponto, _, finalName) =>
    let fs' := finalName :: fs
    if writeOk then
      let relUrl := "/imagens/" ++ storageDir registro ++ "/" ++ finalName
      let base := get_base_url envBase ctx
      (.ok ⟨base ++ relUrl, mime, binary.length, registro, ponto, relUrl, finalName⟩, fs')
    else (.error .storageWriteFailed, fs')

/-! ### Concurrent model of `next_sequential_name` + the final write

Each request runs the probe loop of `next_sequential_name` followed by the
byte write of `upload`.  Each filesystem syscall — `os.path.exists`,
`open(full, "x")`, `os.unlink`, `open(full_path, "wb")` — is one atomic step;
steps of concurrent requests interleave over the shared directory listing. -/

/-- Local state of one request: program counter of the probe loop
(lines 141-158 of `app.py`) followed by the write (line 254). -/
inductive PState where
  | loopTop (n attempts : Nat)
  | create (n attempts : Nat)
  | removeProbe (n attempts : Nat)
  | writing (name : String)
  | done (name : String)
  | exhausted
deriving DecidableEq

/-- One atomic step of a request against the shared directory listing. -/
def procStep (bp ext : String) : PState → List String → PState × List String
  | .loopTop n a, fs =>
    if 10000 ≤ a then (.exhausted, fs)
    else if candidateName bp n ext ∈ fs then (.loopTop (n + 1) (a + 1), fs)
    else (.create n a, fs)
  | .create n a, fs =>
    if candidateName bp n ext ∈ fs then (.loopTop (n + 1) (a + 1), fs)
    else (.removeProbe n a, candidateName bp n ext :: fs)
  | .removeProbe n _, fs =>
    (.writing (candidateName bp n ext), fs.erase (candidateName bp n ext))
  | .writing nm, fs => (.done nm, nm :: fs)
  | s, fs => (s, fs)

/-- Run two requests under a schedule: `true` steps the first request,
`false` the second. -/
def runSched (bp ext : String) : List Bool → PState × PState × List String →
    PState × PState × List String
  | [], st => st
  | b :: rest, (p1, p2, fs) =>
    if b then
      let r := procStep bp ext p1 fs
      runSched bp ext rest (r.1, p2, r.2)
    else
      let r := procStep bp ext p2 fs
      runSched bp ext rest (p1, r.1, r.2)

/-- A direct-connection request context with no forwarding headers, used for
concrete runs. -/
def ctx0 : ReqCtx :=
  ⟨none, none, none, "http", "http://localhost:8002/"⟩

/-! ### Base64 lemmas -/

theorem b64Index?_b64Char : ∀ i, i < 64 → b64Index? (b64Char i) = some i := by
  decide

theorem b64Char_ne_eq : ∀ i, i < 64 → b64Char i ≠ '=' := by
  decide

theorem b64Char_ne_nl : ∀ i, i < 64 → b64Char i ≠ Char.ofNat 10 := by
  decide

/-- Decoding inverts encoding on byte sequences (each byte < 256). -/
theorem b64decode_b64encode :
    ∀ l : List Nat, (∀ b ∈ l, b < 256) → b64decodeList (b64encodeList l) = some l := by
  intro l
  induction l using b64encodeList.induct with
  | case1 =>
    intro _
    rfl
  | case2 a =>
    intro hb
    have ha : a < 256 := hb a (by simp)
    have h1 : a / 4 < 64 := by omega
    have h2 : a % 4 * 16 < 64 := by omega
    simp [b64encodeList, b64decodeList, b64Index?_b64Char _ h1, b64Index?_b64Char _ h2]
    omega
  | case3 a b =>
    intro hb
    have ha : a < 256 := hb a (by simp)
    have hb' : b < 256 := hb b (by simp)
    have h1 : a / 4 < 64 := by omega
    have h2 : a % 4 * 16 + b / 16 < 64 := by omega
    have h3 : b % 16 * 4 < 64 := by omega
    simp [b64encodeList, b64decodeList, b64Index?_b64Char _ h1, b64Index?_b64Char _ h2,
      b64Index?_b64Char _ h3, b64Char_ne_eq _ h3]
    omega
  | case4 a b c rest ih =>
    intro hmem
    have ha : a < 256 := hmem a (by simp)
    have hb' : b < 256 := hmem b (by simp)
    have hc : c < 256 := hmem c (by simp)
    have h1 : a / 4 < 64 := by omega
    have h2 : a % 4 * 16 + b / 16 < 64 := by omega
    have h3 : b % 16 * 4 + c / 64 < 64 := by omega
    have h4 : c % 64 < 64 := by omega
    have ihr : b64decodeList (b64encodeList rest) = some rest := by
      apply ih
      intro x hx
      exact hmem x (by simp [hx])
    simp [b64encodeList, b64decodeList, b64Index?_b64Char _ h1, b64Index?_b64Char _ h2,
      b64Index?_b64Char _ h3, b64Index?_b64Char _ h4, b64Char_ne_eq _ h3, b64Char_ne_eq _ h4,
      ihr]
    omega

/-- Every character emitted by the encoder is an alphabet character or `=`. -/
theorem b64encode_chars :
    ∀ l : List Nat, (∀ b ∈ l, b < 256) →
      ∀ c ∈ b64encodeList l, (∃ i, i < 64 ∧ c = b64Char i) ∨ c = '=' := by
  intro l
  induction l using b64encodeList.induct with
  | case1 =>
    intro _ c hc
    simp [b64encodeList] at hc
  | case2 a =>
    intro hb c hc
    have ha : a < 256 := hb a (by simp)
    simp only [b64encodeList, List.mem_cons, List.not_mem_nil, or_false] at hc
    rcases hc with h | h | h | h
    · exact Or.inl ⟨a / 4, by omega, h⟩
    · exact Or.inl ⟨a % 4 * 16, by omega, h⟩
    · exact Or.inr h
    · exact Or.inr h
  | case3 a b =>
    intro hb c hc
    have ha : a < 256 := hb a (by simp)
    have hb' : b < 256 := hb b (by simp)
    simp only [b64encodeList, List.mem_cons, List.not_mem_nil, or_false] at hc
    rcases hc with h | h | h | h
    · exact Or.inl ⟨a / 4, by omega, h⟩
    · exact Or.inl ⟨a % 4 * 16 + b / 16, by omega, h⟩
    · exact Or.inl ⟨b % 16 * 4, by omega, h⟩
    · exact Or.inr h
  | case4 a b c rest ih =>
    intro hmem x hx
    have ha : a < 256 := hmem a (by simp)
    have hb' : b < 256 := hmem b (by simp)
    have hc : c < 256 := hmem c (by simp)
    simp only [b64encodeList, List.mem_cons] at hx
    rcases hx with h | h | h | h | h
    · exact Or.inl ⟨a / 4, by omega, h⟩
    · exact Or.inl ⟨a % 4 * 16 + b / 16, by omega, h⟩
    · exact Or.inl ⟨b % 16 * 4 + c / 64, by omega, h⟩
    · exact Or.inl ⟨c % 64, by omega, h⟩
    · exact ih (fun y hy => hmem y (by simp [hy])) x h

theorem b64encode_ne_nil :
    ∀ l : List Nat, l ≠ [] → b64encodeList l ≠ [] := by
  intro l hl
  match l with
  | [] => exact absurd rfl hl
  | [a] => simp [b64encodeList]
  | [a, b] => simp [b64encodeList]
  | a :: b :: c :: rest => simp [b64encodeList]

/-! ### Decimal rendering facts -/

theorem toDigitsCore_length_le :
    ∀ (fuel n : Nat) (ds : List Char),
      ds.length ≤ (Nat.toDigitsCore 10 fuel n ds).length := by
  intro fuel
  induction fuel with
  | zero => intro n ds; simp [Nat.toDigitsCore]
  | succ f ih =>
    intro n ds
    simp only [Nat.toDigitsCore]
    by_cases h : n / 10 = 0
    · simp [h]
    · simp only [h, if_false]
      calc ds.length ≤ (Nat.digitChar (n % 10) :: ds).length := by simp
        _ ≤ _ := ih (n / 10) _

theorem toDigitsCore_length_ge_one :
    ∀ (fuel n : Nat) (ds : List Char), 1 ≤ fuel →
      ds.length + 1 ≤ (Nat.toDigitsCore 10 fuel n ds).length := by
  intro fuel n ds hf
  match fuel, hf with
  | f + 1, _ =>
    simp only [Nat.toDigitsCore]
    by_cases h : n / 10 = 0
    · simp [h]
    · simp only [h, if_false]
      calc ds.length + 1 = (Nat.digitChar (n % 10) :: ds).length := by simp
        _ ≤ _ := toDigitsCore_length_le f (n / 10) _

/-- Numbers of two or more decimal digits have a representation of length
at least 2. -/
theorem repr_length_ge_two (n : Nat) (h : 10 ≤ n) : 2 ≤ (Nat.repr n).length := by
  have hfuel : n + 1 = n + 1 := rfl
  show 2 ≤ (Nat.toDigits 10 n).asString.length
  have hlen : (Nat.toDigits 10 n).asString.length = (Nat.toDigits 10 n).length := rfl
  rw [hlen]
  unfold Nat.toDigits
  match n, h with
  | m + 10, _ =>
    simp only [Nat.toDigitsCore]
    have hdiv : (m + 10) / 10 ≠ 0 := by omega
    simp only [hdiv, if_false]
    have := toDigitsCore_length_ge_one (m + 10) ((m + 10) / 10)
      [Nat.digitChar ((m + 10) % 10)] (by omega)
    simpa using this

/-- The only natural number rendered as `"0"` is 0. -/
theorem toString_eq_zero_iff (n : Nat) : toString n = "0" ↔ n = 0 := by
  constructor
  · intro h
    by_contra hne
    rcases Nat.lt_or_ge n 10 with hlt | hge
    · interval_cases n <;> simp_all <;> exact absurd h (by decide)
    · have h2 := repr_length_ge_two n hge
      have : (toString n).length = 1 := by rw [h]; rfl
      have he : toString n = Nat.repr n := rfl
      rw [he] at this
      omega
  · intro h
    subst h
    rfl

/-- `str(i)` on a non-negative Python int agrees with the rendering of the
corresponding natural number. -/
theorem toString_int_nonneg (i : Int) (h : 0 ≤ i) :
    toString i = toString i.toNat := by
  match i, h with
  | Int.ofNat m, _ => rfl

/-! ### Characterization of the probe loop -/

theorem nextSeqAux_some_iff (fs : List String) (bp ext : String) :
    ∀ (fuel n : Nat) (c : String),
      nextSeqAux fs bp ext n fuel = some c ↔
        ∃ k, k < fuel ∧ c = candidateName bp (n + k) ext ∧
          candidateName bp (n + k) ext ∉ fs ∧
          ∀ j, j < k → candidateName bp (n + j) ext ∈ fs := by
  intro fuel
  induction fuel with
  | zero =>
    intro n c
    simp [nextSeqAux]
  | succ f ih =>
    intro n c
    simp only [nextSeqAux]
    by_cases h : candidateName bp n ext ∈ fs
    · rw [if_pos h, ih (n + 1) c]
      constructor
      · rintro ⟨k, hk, hc, hnot, hall⟩
        refine ⟨k + 1, by omega, by rw [hc]; ring_nf, ?_, ?_⟩
        · have : n + 1 + k = n + (k + 1) := by omega
          rw [← this]; exact hnot
        · intro j hj
          rcases Nat.eq_zero_or_pos j with rfl | hpos
          · simpa using h
          · have : n + j = n + 1 + (j - 1) := by omega
            rw [this]
            exact hall (j - 1) (by omega)
      · rintro ⟨k, hk, hc, hnot, hall⟩
        rcases Nat.eq_zero_or_pos k with rfl | hpos
        · simp at hc hnot
          exact absurd h hnot
        · refine ⟨k - 1, by omega, ?_, ?_, ?_⟩
          · rw [hc]; congr 1; omega
          · have : n + k = n + 1 + (k - 1) := by omega
            rw [← this]; exact hnot
          · intro j hj
            have : n + 1 + j = n + (j + 1) := by omega
            rw [this]
            exact hall (j + 1) (by omega)
    · rw [if_neg h]
      constructor
      · rintro ⟨rfl⟩
        exact ⟨0, by omega, by simp, by simpa using h, by omega⟩
      · rintro ⟨k, hk, hc, hnot, hall⟩
        rcases Nat.eq_zero_or_pos k with rfl | hpos
        · simp at hc
          simp [hc]
        · exact absurd (hall 0 hpos) (by simpa using h)

theorem nextSeqAux_none_iff (fs : List String) (bp ext : String) :
    ∀ (fuel n : Nat),
      nextSeqAux fs bp ext n fuel = none ↔
        ∀ k, k < fuel → candidateName bp (n + k) ext ∈ fs := by
  intro fuel
  induction fuel with
  | zero =>
    intro n
    simp [nextSeqAux]
  | succ f ih =>
    intro n
    simp only [nextSeqAux]
    by_cases h : candidateName bp n ext ∈ fs
    · rw [if_pos h, ih (n + 1)]
      constructor
      · intro hall k hk
        rcases Nat.eq_zero_or_pos k with rfl | hpos
        · simpa using h
        · have : n + k = n + 1 + (k - 1) := by omega
          rw [this]
          exact hall (k - 1) (by omega)
      · intro hall k hk
        have : n + 1 + k = n + (k + 1) := by omega
        rw [this]
        exact hall (k + 1) (by omega)
    · rw [if_neg h]
      constructor
      · intro hc
        exact absurd hc (by simp)
      · intro hall
        exact absurd (by simpa using hall 0 (by omega)) h

/-- The namer's successful result is never an occupied name and always has
index at least `max 1 start`. -/
theorem next_sequential_name_ok (fs : List String) (bp ext : String) (start : Int)
    (c : String) (h : next_sequential_name fs bp ext start = .ok c) :
    ∃ n, c = candidateName bp n ext ∧ (max 1 start).toNat ≤ n ∧ 1 ≤ n ∧ c ∉ fs := by
  unfold next_sequential_name at h
  rcases haux : nextSeqAux fs bp ext (max 1 start).toNat 10000 with _ | c'
  · rw [haux] at h; exact absurd h (by simp)
  · rw [haux] at h
    have hc : c' = c := by simpa using h
    subst hc
    rw [nextSeqAux_some_iff] at haux
    rcases haux with ⟨k, _, hc, hnot, _⟩
    refine ⟨(max 1 start).toNat + k, hc, by omega, ?_, by rw [hc]; exact hnot⟩
    have h1 : (1 : Int) ≤ max 1 start := le_max_left 1 start
    omega

theorem next_sequential_name_ok_iff (fs : List String) (bp ext : String) (start : Int)
    (c : String) :
    next_sequential_name fs bp ext start = .ok c ↔
      nextSeqAux fs bp ext (max 1 start).toNat 10000 = some c := by
  unfold next_sequential_name
  rcases h : nextSeqAux fs bp ext (max 1 start).toNat 10000 with _ | c' <;> simp

theorem next_sequential_name_err_iff (fs : List String) (bp ext : String) (start : Int) :
    next_sequential_name fs bp ext start = .error .nameSpaceExhausted ↔
      nextSeqAux fs bp ext (max 1 start).toNat 10000 = none := by
  unfold next_sequential_name
  rcases h : nextSeqAux fs bp ext (max 1 start).toNat 10000 with _ | c' <;> simp

theorem uploadCore_final (maxMB : Nat) (fs : List String) (uuid : String) (p : UploadIn)
    (mime : String) (binary : List Nat) (registro ponto : Option Int) (bp fn : String)
    (h : uploadCore maxMB fs uuid p = .ok (mime, binary, registro, ponto, bp, fn)) :
    resolveFinalName fs bp ((ALLOWED_MIMES.lookup mime).getD "") ponto = .ok fn ∧
    pontoNeg ponto = false := by
  unfold uploadCore at h
  split at h
  · exact absurd h (by simp)
  split at h
  · exact absurd h (by simp)
  rename_i mime' binary' hp
  split at h
  · exact absurd h (by simp)
  rename_i hreg
  split at h
  · exact absurd h (by simp)
  rename_i hponto
  split at h
  · exact absurd h (by simp)
  rename_i fn' hf
  simp only [Except.ok.injEq, Prod.mk.injEq] at h
  obtain ⟨rfl, -, rfl, rfl, rfl, rfl⟩ := h
  exact ⟨hf, by simpa using hponto⟩

theorem toList_append (a b : String) : (a ++ b).toList = a.toList ++ b.toList := rfl

theorem candidateName_toList (bp ext : String) (n : Nat) :
    (candidateName bp n ext).toList =
      bp.toList ++ ('-' :: ((toString n).toList ++ ('.' :: ext.toList))) := by
  simp [candidateName, toList_append]

theorem resolveFinalName_ok_shape (fs : List String) (bp ext : String)
    (ponto : Option Int) (fn : String) (hpn : pontoNeg ponto = false)
    (h : resolveFinalName fs bp ext ponto = .ok fn) :
    ∃ n : Nat, fn = candidateName bp n ext ∧ (1 ≤ n ∨ ponto = some 0) := by
  cases ponto with
  | none =>
    rcases next_sequential_name_ok fs bp ext 1 fn h with ⟨n, hc, _, h1, _⟩
    exact ⟨n, hc, Or.inl h1⟩
  | some pt =>
    have hpt : 0 ≤ pt := by
      simp [pontoNeg] at hpn
      omega
    simp only [resolveFinalName] at h
    split at h
    · rcases next_sequential_name_ok fs bp ext (pt + 1) fn h with ⟨n, hc, _, h1, _⟩
      exact ⟨n, hc, Or.inl h1⟩
    · have h2 : bp ++ "-" ++ toString pt ++ "." ++ ext = fn := by simpa using h
      have hfn : fn = candidateName bp pt.toNat ext := by
        rw [← h2, candidateName, toString_int_nonneg pt hpt]
      rcases Int.lt_or_le 0 pt with hgt | hle
      · exact ⟨pt.toNat, hfn, Or.inl (by omega)⟩
      · have hz : pt = 0 := le_antisymm hle hpt
        exact ⟨pt.toNat, hfn, Or.inr (by rw [hz])⟩

theorem parse_data_url_ne_swf (maxMB : Nat) (dataUrl : String) :
    parse_data_url maxMB dataUrl ≠ .error .storageWriteFailed := by
  unfold parse_data_url
  repeat' split
  all_goals simp

theorem next_sequential_name_ne_swf (fs : List String) (bp ext : String) (start : Int) :
    next_sequential_name fs bp ext start ≠ .error .storageWriteFailed := by
  unfold next_sequential_name
  split <;> simp

theorem resolveFinalName_ne_swf (fs : List String) (bp ext : String)
    (ponto : Option Int) :
    resolveFinalName fs bp ext ponto ≠ .error .storageWriteFailed := by
  cases ponto with
  | none => exact next_sequential_name_ne_swf fs bp ext 1
  | some pt =>
    simp only [resolveFinalName]
    split
    · exact next_sequential_name_ne_swf fs bp ext (pt + 1)
    · simp

theorem uploadCore_ne_swf (maxMB : Nat) (fs : List String) (uuid : String)
    (p : UploadIn) :
    uploadCore maxMB fs uuid p ≠ .error .storageWriteFailed := by
  unfold uploadCore
  split
  · simp
  split
  · rename_i e hp
    intro hcontra
    apply parse_data_url_ne_swf maxMB p.data_url
    rw [hp]
    simpa using hcontra
  split
  · simp
  split
  · simp
  split
  · rename_i e hf
    intro hcontra
    apply resolveFinalName_ne_swf
    rw [hf]
    simpa using hcontra
  · simp

theorem stripLit_append (xs ys : List Char) : stripLit xs (xs ++ ys) = some ys := by
  induction xs with
  | nil => rfl
  | cons a t ih => simp [stripLit, ih]

theorem takeWhile_append_of_all (p : Char → Bool) (xs : List Char)
    (h : ∀ c ∈ xs, p c = true) (z : Char) (hz : p z = false) (tl : List Char) :
    (xs ++ z :: tl).takeWhile p = xs ∧ (xs ++ z :: tl).dropWhile p = z :: tl := by
  induction xs with
  | nil => simp [List.takeWhile, List.dropWhile, hz]
  | cons a t ih =>
    have ha : p a = true := h a (by simp)
    obtain ⟨h1, h2⟩ := ih (fun c hc => h c (by simp [hc]))
    simp [List.takeWhile_cons, List.dropWhile_cons, ha, h1, h2]

theorem b64encode_length :
    ∀ l : List Nat, (b64encodeList l).length = 4 * ((l.length + 2) / 3) := by
  intro l
  induction l using b64encodeList.induct with
  | case1 => rfl
  | case2 a =>
    simp [b64encodeList]
  | case3 a b =>
    simp [b64encodeList]
  | case4 a b c rest ih =>
    simp only [b64encodeList, List.length_cons, ih]
    omega

/-- `dataUrlMatch` on a well-formed `data:` URL whose mime part consists of
class characters and whose payload part is nonempty and newline-free. -/
theorem dataUrlMatch_generic (mcs enc : List Char)
    (hmc : ∀ c ∈ mcs, isMimeChar c = true) (hmne : mcs ≠ [])
    (hencne : enc ≠ []) (hnl : ∀ c ∈ enc, ¬ c = Char.ofNat 10) :
    dataUrlMatch (String.mk ("data:".toList ++ (mcs ++ (";base64,".toList ++ enc)))) =
      some (String.mk mcs, String.mk enc) := by
  have hr : ";base64,".toList ++ enc = ';' :: ("base64,".toList ++ enc) := rfl
  obtain ⟨htake, hdrop⟩ := takeWhile_append_of_all isMimeChar mcs hmc ';' (by decide)
    ("base64,".toList ++ enc)
  have hlast : enc.getLast? ≠ some (Char.ofNat 10) := by
    intro hcontra
    exact hnl _ (List.mem_of_getLast?_eq_some hcontra) rfl
  have hbody : dollarBody enc = enc := by
    rw [dollarBody, if_neg hlast]
  have hany : enc.any (fun c => decide (c = Char.ofNat 10)) = false := by
    rw [List.any_eq_false]
    intro x hx
    simpa using hnl x hx
  have htl : (String.mk ("data:".toList ++ (mcs ++ (";base64,".toList ++ enc)))).toList =
      "data:".toList ++ (mcs ++ (";base64,".toList ++ enc)) := rfl
  rw [← hr] at htake hdrop
  unfold dataUrlMatch
  simp only [htl, stripLit_append, htake, hdrop, hmne, hbody, hany, hencne,
    if_false, or_false, Bool.false_eq_true, if_neg]

/-- `parse_data_url` on a built data URL, for a mime string made of class
characters that is already lower-case and allow-listed. -/
theorem parse_mkDataUrl (maxMB : Nat) (m : String) (b : List Nat)
    (hmc : ∀ c ∈ m.toList, isMimeChar c = true) (hmne : m.toList ≠ [])
    (hlow : lowerStr m = m) (hlook : (ALLOWED_MIMES.lookup m).isSome = true)
    (hmlen : m.length ≤ 10)
    (hb : ∀ x ∈ b, x < 256) (hne : b ≠ [])
    (hlen : b.length ≤ maxMB * 1024 * 1024) (hmax : maxMB ≤ 25) :
    parse_data_url maxMB (mkDataUrl m b) = .ok (m, b) := by
  have hnl : ∀ c ∈ b64encodeList b, ¬ c = Char.ofNat 10 := by
    intro c hc
    rcases b64encode_chars b hb c hc with ⟨i, hi, rfl⟩ | rfl
    · exact b64Char_ne_nl i hi
    · decide
  have hencne : b64encodeList b ≠ [] := b64encode_ne_nil b hne
  have h1 : mkDataUrl m b =
      String.mk ("data:".toList ++ (m.toList ++ (";base64,".toList ++ b64encodeList b))) := by
    apply String.ext
    show (("data:" ++ m ++ ";base64,").toList ++ b64encodeList b) = _
    simp [toList_append, List.append_assoc]
  have hmatch : dataUrlMatch (mkDataUrl m b) = some (m, String.mk (b64encodeList b)) := by
    rw [h1, dataUrlMatch_generic m.toList (b64encodeList b) hmc hmne hencne hnl]
    rfl
  have hlname : (mkDataUrl m b).length = 13 + m.length + (b64encodeList b).length := by
    rw [h1]
    show ("data:".toList ++ (m.toList ++ (";base64,".toList ++ b64encodeList b))).length = _
    simp [String.toList]
    omega
  have hlen50 : ¬ (mkDataUrl m b).length > 50 * 1024 * 1024 := by
    rw [hlname, b64encode_length b]
    have hb25 : b.length ≤ 25 * 1024 * 1024 := le_trans hlen (by
      have := Nat.mul_le_mul_right (1024 * 1024) hmax
      omega)
    omega
  obtain ⟨v, hv⟩ := Option.isSome_iff_exists.1 hlook
  unfold parse_data_url
  rw [if_neg hlen50]
  simp only [hmatch, hlow, hv]
  simp only [show (String.mk (b64encodeList b)).toList = b64encodeList b from rfl,
    b64decode_b64encode b hb]
  rw [if_neg (by omega)]

/-! ### Claim theorems -/

/-- C1: the exclusive-create probe does NOT guarantee uniqueness of the
allocated sequential number across concurrent uploads.  The probe file is
unlinked before the caller's write, so with the second request's probe
interleaved between the first request's unlink and write, both requests
complete having claimed the same candidate `1-1.jpg`, and both write it. -/
theorem concurrent_probe_race :
    runSched "1" "jpg" [true, true, true, false, false, false, true, false]
        (.loopTop 1 0, .loopTop 1 0, []) =
      (.done "1-1.jpg", .done "1-1.jpg", ["1-1.jpg", "1-1.jpg"]) ∧
    "1-1.jpg" = candidateName "1" 1 "jpg" := by
  exact ⟨rfl, rfl⟩

/-- C2: starting at `n = max(1, start)`, the namer returns the first
candidate `{bp}-{n}.{ext}` (in increasing order of `n`) absent from the
directory; if all 10000 attempts are occupied it fails with the
namespace-exhausted error, whose HTTP status is 500. -/
theorem next_sequential_name_spec (fs : List String) (bp ext : String) (start : Int) :
    (∀ c, next_sequential_name fs bp ext start = .ok c ↔
      ∃ k, k < 10000 ∧ c = candidateName bp ((max 1 start).toNat + k) ext ∧
        candidateName bp ((max 1 start).toNat + k) ext ∉ fs ∧
        ∀ j, j < k → candidateName bp ((max 1 start).toNat + j) ext ∈ fs)
    ∧ (next_sequential_name fs bp ext start = .error .nameSpaceExhausted ↔
      ∀ k, k < 10000 → candidateName bp ((max 1 start).toNat + k) ext ∈ fs)
    ∧ statusCode .nameSpaceExhausted = 500 := by
  refine ⟨?_, ?_, rfl⟩
  · intro c
    rw [next_sequential_name_ok_iff, nextSeqAux_some_iff]
  · rw [next_sequential_name_err_iff, nextSeqAux_none_iff]

/-- C3: with no known `ponto` the namer runs from 1; with a known `ponto` the
exact candidate is used when free and otherwise the namer searches from
`ponto + 1`; the resolved name never collides with an existing file.
Concretely, with `5-2.jpg` already stored, an upload with registro 5 and
ponto 2 is saved as `5-3.jpg` and `5-2.jpg` survives. -/
theorem resolve_final_name_spec (fs : List String) (bp ext : String) (pt : Int)
    (hpt : 0 ≤ pt) :
    (resolveFinalName fs bp ext none = next_sequential_name fs bp ext 1)
    ∧ (candidateName bp pt.toNat ext ∉ fs →
        resolveFinalName fs bp ext (some pt) = .ok (candidateName bp pt.toNat ext))
    ∧ (candidateName bp pt.toNat ext ∈ fs →
        resolveFinalName fs bp ext (some pt) = next_sequential_name fs bp ext (pt + 1))
    ∧ (∀ nm, resolveFinalName fs bp ext (some pt) = .ok nm → nm ∉ fs)
    ∧ resolveFinalName ["5-2.jpg"] "5" "jpg" (some 2) = .ok "5-3.jpg"
    ∧ upload 25 none ctx0 ["5-2.jpg"] "u" true
        ⟨"a.jpg", "data:image/jpeg;base64,AA==", some 5, some 2⟩ =
      (.ok ⟨"http://localhost:8002/imagens/5/5-3.jpg", "image/jpeg", 1, some 5, some 2,
        "/imagens/5/5-3.jpg", "5-3.jpg"⟩, ["5-3.jpg", "5-2.jpg"]) := by
  have hts : (bp ++ "-" ++ toString pt ++ "." ++ ext) = candidateName bp pt.toNat ext := by
    rw [candidateName, toString_int_nonneg pt hpt]
  refine ⟨rfl, ?_, ?_, ?_, rfl, rfl⟩
  · intro hfree
    rw [resolveFinalName, hts, if_neg hfree]
  · intro hocc
    rw [resolveFinalName, hts, if_pos hocc]
  · intro nm hnm
    rw [resolveFinalName, hts] at hnm
    by_cases hocc : candidateName bp pt.toNat ext ∈ fs
    · rw [if_pos hocc] at hnm
      rcases next_sequential_name_ok fs bp ext (pt + 1) nm hnm with ⟨n, _, _, _, hnot⟩
      exact hnot
    · rw [if_neg hocc] at hnm
      have : candidateName bp pt.toNat ext = nm := by simpa using hnm
      rw [← this]
      exact hocc

/-- Witness for `resolve_final_name_spec` at `fs = ["5-2.jpg"]`, `pt = 2`. -/
theorem resolve_final_name_spec_witness :
    resolveFinalName ["5-2.jpg"] "5" "jpg" (some 2) =
      next_sequential_name ["5-2.jpg"] "5" "jpg" (2 + 1) :=
  (resolve_final_name_spec ["5-2.jpg"] "5" "jpg" 2 (by decide)).2.2.1 (by decide)

/-- C5: an explicitly supplied `registro` or `ponto` always wins over the
filename-derived value; with neither supplied, filename `42-3.jpg` yields
registro 42 and ponto 3, end to end through `upload`. -/
theorem id_extraction_spec :
    (∀ fn pon x, (resolveIds fn (some x) pon).1 = some x)
    ∧ (∀ fn reg y, (resolveIds fn reg (some y)).2 = some y)
    ∧ resolveIds "42-3.jpg" none none = (some 42, some 3)
    ∧ upload 25 none ctx0 [] "u" true ⟨"42-3.jpg", "data:image/png;base64,AA==", none, none⟩ =
        (.ok ⟨"http://localhost:8002/imagens/42/42-3.png", "image/png", 1, some 42, some 3,
          "/imagens/42/42-3.png", "42-3.png"⟩, ["42-3.png"]) := by
  refine ⟨?_, ?_, rfl, rfl⟩
  · intro fn pon x
    unfold resolveIds
    rcases matchIdPattern (lowerStr fn) with _ | ⟨r, p, e⟩ <;> rfl
  · intro fn reg y
    unfold resolveIds
    rcases matchIdPattern (lowerStr fn) with _ | ⟨r, p, e⟩ <;> rfl

/-- C6 counterexample: the accepted upload with registro 5 and ponto 0
persists `5-0.png`, whose numeric suffix is 0 — and 0 is the only index
rendering to that name — so not every persisted file has `n ≥ 1`. -/
theorem stored_index_zero_cex :
    upload 25 none ctx0 [] "u" true ⟨"x.png", "data:image/png;base64,AA==", some 5, some 0⟩ =
      (.ok ⟨"http://localhost:8002/imagens/5/5-0.png", "image/png", 1, some 5, some 0,
        "/imagens/5/5-0.png", "5-0.png"⟩, ["5-0.png"]) ∧
    "5-0.png" = candidateName "5" 0 "png" ∧
    (∀ n : Nat, "5-0.png" = candidateName "5" n "png" → n = 0) := by
  refine ⟨rfl, rfl, ?_⟩
  intro n h
  apply (toString_eq_zero_iff n).1
  have h2 := congrArg String.toList h
  rw [candidateName_toList] at h2
  have h3 : ('0' :: ('.' :: 'p' :: 'n' :: 'g' :: [])) =
      (toString n).toList ++ ('.' :: 'p' :: 'n' :: 'g' :: []) := by
    have h4 : ("5-0.png").toList = '5' :: '-' :: '0' :: '.' :: 'p' :: 'n' :: 'g' :: [] := rfl
    rw [h4] at h2
    have h5 : ("5").toList = ['5'] := rfl
    rw [h5] at h2
    simpa using h2
  have h6 : (['0'] : List Char) ++ ('.' :: 'p' :: 'n' :: 'g' :: []) =
      (toString n).toList ++ ('.' :: 'p' :: 'n' :: 'g' :: []) := h3
  have h7 := List.append_inj_left' h6 rfl
  have h8 : (toString n).toList = ['0'] := h7.symm
  have h9 : toString n = "0" := by
    cases hs : toString n with
    | mk data =>
      rw [hs] at h8
      simp only [String.toList] at h8
      rw [h8] at hs ⊢
  exact h9

/-- C6 amended: every persisted file is written into the directory listing
under a name `{bp}-{n}.{ext}` built from the pipeline's own base name and
MIME extension; `n ≥ 1` holds except in the one case where an accepted
`ponto = 0` found its exact candidate free, in which case `n = 0`. -/
theorem stored_name_shape (maxMB : Nat) (envB : Option String) (ctx : ReqCtx)
    (fs : List String) (uuid : String) (wOk : Bool) (p : UploadIn)
    (res : UploadResult) (fs' : List String)
    (h : upload maxMB envB ctx fs uuid wOk p = (.ok res, fs')) :
    fs' = res.filename :: fs ∧
    ∃ mime binary bp n,
      uploadCore maxMB fs uuid p = .ok (mime, binary, res.registro, res.ponto, bp, res.filename) ∧
      res.filename = candidateName bp n ((ALLOWED_MIMES.lookup mime).getD "") ∧
      (1 ≤ n ∨ res.ponto = some 0) := by
  unfold upload at h
  split at h
  · exact absurd h (by simp)
  rename_i mime binary registro ponto bp fn hc
  split at h
  · simp only [Prod.mk.injEq, Except.ok.injEq] at h
    obtain ⟨rfl, rfl⟩ := h
    refine ⟨rfl, mime, binary, bp, ?_⟩
    obtain ⟨hf, hpn⟩ := uploadCore_final maxMB fs uuid p mime binary registro ponto bp fn hc
    rcases resolveFinalName_ok_shape fs bp ((ALLOWED_MIMES.lookup mime).getD "")
      ponto fn hpn hf with ⟨n, hshape, hcase⟩
    exact ⟨n, hc, hshape, hcase⟩
  · exact absurd h (by simp)

/-- Witness for `stored_name_shape` at the concrete ponto-0 upload. -/
theorem stored_name_shape_witness :
    (["5-0.png"] : List String) =
      (⟨"http://localhost:8002/imagens/5/5-0.png", "image/png", 1, some 5, some 0,
        "/imagens/5/5-0.png", "5-0.png"⟩ : UploadResult).filename :: [] ∧
    ∃ mime binary bp n,
      uploadCore 25 [] "u" ⟨"x.png", "data:image/png;base64,AA==", some 5, some 0⟩ =
        .ok (mime, binary,
          (⟨"http://localhost:8002/imagens/5/5-0.png", "image/png", 1, some 5, some 0,
            "/imagens/5/5-0.png", "5-0.png"⟩ : UploadResult).registro,
          (⟨"http://localhost:8002/imagens/5/5-0.png", "image/png", 1, some 5, some 0,
            "/imagens/5/5-0.png", "5-0.png"⟩ : UploadResult).ponto, bp,
          (⟨"http://localhost:8002/imagens/5/5-0.png", "image/png", 1, some 5, some 0,
            "/imagens/5/5-0.png", "5-0.png"⟩ : UploadResult).filename) ∧
      (⟨"http://localhost:8002/imagens/5/5-0.png", "image/png", 1, some 5, some 0,
        "/imagens/5/5-0.png", "5-0.png"⟩ : UploadResult).filename =
        candidateName bp n ((ALLOWED_MIMES.lookup mime).getD "") ∧
      (1 ≤ n ∨
        (⟨"http://localhost:8002/imagens/5/5-0.png", "image/png", 1, some 5, some 0,
          "/imagens/5/5-0.png", "5-0.png"⟩ : UploadResult).ponto = some 0) :=
  stored_name_shape 25 none ctx0 [] "u" true
    ⟨"x.png", "data:image/png;base64,AA==", some 5, some 0⟩
    ⟨"http://localhost:8002/imagens/5/5-0.png", "image/png", 1, some 5, some 0,
      "/imagens/5/5-0.png", "5-0.png"⟩ ["5-0.png"] rfl

/-- C7 counterexample: a failing upload request (the final write fails) does
leave a file behind — the name opened for writing stays in the directory. -/
theorem write_failure_leaves_file_cex :
    upload 25 none ctx0 [] "u" false ⟨"a.png", "data:image/png;base64,AA==", some 5, some 1⟩ =
      (.error .storageWriteFailed, ["5-1.png"]) ∧
    (["5-1.png"] : List String) ≠ [] := by
  exact ⟨rfl, by simp⟩

/-- C7 amended: a failing upload leaves the directory unchanged whenever the
failure happens before the byte write (the write is the last fallible step);
only a failure of the write itself leaves the freshly created artifact
behind. -/
theorem upload_failure_fs (maxMB : Nat) (envB : Option String) (ctx : ReqCtx)
    (fs : List String) (uuid : String) (wOk : Bool) (p : UploadIn)
    (e : UploadError) (fs' : List String)
    (h : upload maxMB envB ctx fs uuid wOk p = (.error e, fs')) :
    (e ≠ .storageWriteFailed → fs' = fs) ∧
    (e = .storageWriteFailed → ∃ nm, fs' = nm :: fs) := by
  unfold upload at h
  split at h
  · rename_i e' hc
    simp only [Prod.mk.injEq, Except.error.injEq] at h
    obtain ⟨rfl, rfl⟩ := h
    refine ⟨fun _ => rfl, fun he => ?_⟩
    subst he
    exact absurd hc (uploadCore_ne_swf maxMB fs uuid p)
  · rename_i mime binary registro ponto bp fn hc
    split at h
    · exact absurd h (by simp)
    · simp only [Prod.mk.injEq, Except.error.injEq] at h
      obtain ⟨rfl, rfl⟩ := h
      exact ⟨fun hne => absurd rfl hne, fun _ => ⟨fn, rfl⟩⟩

/-- Witness for `upload_failure_fs` at the concrete failing write. -/
theorem upload_failure_fs_witness :
    ((UploadError.storageWriteFailed ≠ .storageWriteFailed → (["5-1.png"] : List String) = []) ∧
      (UploadError.storageWriteFailed = .storageWriteFailed →
        ∃ nm, (["5-1.png"] : List String) = nm :: [])) :=
  upload_failure_fs 25 none ctx0 [] "u" false
    ⟨"a.png", "data:image/png;base64,AA==", some 5, some 1⟩ .storageWriteFailed ["5-1.png"] rfl

/-- C4 counterexample: for scheme `http` with forwarded port `443` — not the
scheme's implicit default port — the code appends no port suffix, because the
outer check excludes the literal ports 80 and 443 for every scheme. -/
theorem forwarded_port_cex :
    get_base_url none ⟨some "http", some "example.com", some "443", "http", "x"⟩ =
      "http://example.com" ∧
    ("http" : String) ≠ "https" ∧ ("443" : String) ≠ "80" ∧
    ("http://example.com" : String) ≠ "http://example.com:443" := by
  exact ⟨rfl, by decide, by decide, by decide⟩

/-- C4 amended: with no static base URL and a nonempty forwarded host, the
scheme is the forwarded proto (or the connection's own scheme) and the port
is appended iff the header is present, nonempty, the host does not already
contain `':'`, and the port is not the literal `"80"` or `"443"`,
irrespective of the scheme (the scheme-specific inner check is unreachable
otherwise).  The https/443 example resolves with no port suffix. -/
theorem get_base_url_forwarded (proto : Option String) (hst prt sch base : String)
    (hh : hst ≠ "") :
    get_base_url none ⟨proto, some hst, some prt, sch, base⟩ =
      (if prt ≠ "" ∧ containsColon hst = false ∧ prt ∉ (["80", "443"] : List String) then
        pyOr proto sch ++ "://" ++ hst ++ ":" ++ prt
      else pyOr proto sch ++ "://" ++ hst) ∧
    get_base_url none ⟨some "https", some "example.com", some "443", sch, base⟩ =
      "https://example.com" := by
  constructor
  · cases hcolon : containsColon hst with
    | true =>
      simp [get_base_url, truthy, hh, hcolon]
    | false =>
      by_cases hp : prt = ""
      · subst hp
        simp [get_base_url, truthy, hh, hcolon]
      · by_cases hmem : prt ∈ (["80", "443"] : List String)
        · have h80 : prt = "80" ∨ prt = "443" := by simpa using hmem
          rcases h80 with rfl | rfl <;>
            simp [get_base_url, truthy, hh, hcolon]
        · have hne80 : prt ≠ "80" := by
            intro hcontra
            exact hmem (by rw [hcontra]; simp)
          have hne443 : prt ≠ "443" := by
            intro hcontra
            exact hmem (by rw [hcontra]; simp)
          simp [get_base_url, truthy, hh, hcolon, hp, hmem, hne80, hne443,
            String.append_assoc]
  · simp [get_base_url, truthy, pyOr, String.append_assoc]

/-- Witness for `get_base_url_forwarded` at host `example.com`, port 8080. -/
theorem get_base_url_forwarded_witness :
    (get_base_url none ⟨some "http", some "example.com", some "8080", "http", "x"⟩ =
      (if ("8080" : String) ≠ "" ∧ containsColon "example.com" = false ∧
          ("8080" : String) ∉ (["80", "443"] : List String) then
        pyOr (some "http") "http" ++ "://" ++ "example.com" ++ ":" ++ "8080"
      else pyOr (some "http") "http" ++ "://" ++ "example.com")) ∧
    get_base_url none ⟨some "https", some "example.com", some "443", "http", "x"⟩ =
      "https://example.com" :=
  get_base_url_forwarded (some "http") "example.com" "8080" "http" "x" (by decide)

/-- C8: a request whose data URL passes the regex, allow-list and base64
stages but whose decoded byte length exceeds the configured ceiling fails
with the HTTP 413 payload-too-large error and leaves the directory listing
unchanged. -/
theorem payload_too_large_spec (maxMB : Nat) (envB : Option String) (ctx : ReqCtx)
    (fs : List String) (uuid : String) (wOk : Bool) (p : UploadIn)
    (mime b64 : String) (binary : List Nat)
    (hfn : p.filename ≠ "")
    (hurl : dataUrlMatch p.data_url = some (mime, b64))
    (hlen50 : ¬ p.data_url.length > 50 * 1024 * 1024)
    (hmime : (ALLOWED_MIMES.lookup (lowerStr mime)).isSome = true)
    (hdec : b64decodeList b64.toList = some binary)
    (hbig : binary.length > maxMB * 1024 * 1024) :
    upload maxMB envB ctx fs uuid wOk p = (.error .payloadTooLarge, fs) ∧
    statusCode .payloadTooLarge = 413 := by
  have hdu : p.data_url ≠ "" := by
    intro he
    rw [he, show dataUrlMatch "" = (none : Option (String × String)) from rfl] at hurl
    exact absurd hurl (by simp)
  rcases hm : ALLOWED_MIMES.lookup (lowerStr mime) with _ | pair
  · rw [hm] at hmime
    exact absurd hmime (by simp)
  have hparse : parse_data_url maxMB p.data_url = .error .payloadTooLarge := by
    unfold parse_data_url
    rw [if_neg hlen50]
    simp only [hurl, hm, hdec]
    rw [if_pos hbig]
  have hcore : uploadCore maxMB fs uuid p = .error .payloadTooLarge := by
    unfold uploadCore
    rw [if_neg (by push_neg; exact ⟨hfn, hdu⟩)]
    simp only [hparse]
  refine ⟨?_, rfl⟩
  unfold upload
  simp only [hcore]

/-- Witness for `payload_too_large_spec` with the ceiling configured to 0
MiB, exceeded by a 1-byte payload. -/
theorem payload_too_large_spec_witness :
    upload 0 none ctx0 [] "u" true ⟨"a.png", "data:image/png;base64,AA==", none, none⟩ =
      (.error .payloadTooLarge, []) ∧
    statusCode .payloadTooLarge = 413 :=
  payload_too_large_spec 0 none ctx0 [] "u" true
    ⟨"a.png", "data:image/png;base64,AA==", none, none⟩ "image/png" "AA==" [0]
    (by decide) rfl (by decide) rfl rfl (by decide)

/-- C10: when the resolved `ponto` was occupied so the namer re-allocated
from `ponto + 1`, the response still reports the original `ponto` while the
returned filename carries a strictly larger numeric suffix. -/
theorem response_ponto_stale (maxMB : Nat) (envB : Option String) (ctx : ReqCtx)
    (fs : List String) (uuid : String) (p : UploadIn)
    (mime : String) (binary : List Nat) (registro : Option Int) (pt : Int)
    (bp fn : String) (res : UploadResult) (fs' : List String)
    (hc : uploadCore maxMB fs uuid p = .ok (mime, binary, registro, some pt, bp, fn))
    (hocc : candidateName bp pt.toNat ((ALLOWED_MIMES.lookup mime).getD "") ∈ fs)
    (h : upload maxMB envB ctx fs uuid true p = (.ok res, fs')) :
    res.ponto = some pt ∧
    ∃ n, res.filename = candidateName bp n ((ALLOWED_MIMES.lookup mime).getD "") ∧
      pt.toNat < n := by
  obtain ⟨hf, hpn⟩ := uploadCore_final maxMB fs uuid p mime binary registro (some pt) bp fn hc
  have hpt : 0 ≤ pt := by
    simp [pontoNeg] at hpn
    omega
  have hts : (bp ++ "-" ++ toString pt ++ "." ++ ((ALLOWED_MIMES.lookup mime).getD "")) =
      candidateName bp pt.toNat ((ALLOWED_MIMES.lookup mime).getD "") := by
    rw [candidateName, toString_int_nonneg pt hpt]
  simp only [resolveFinalName] at hf
  rw [hts, if_pos hocc] at hf
  rcases next_sequential_name_ok fs bp ((ALLOWED_MIMES.lookup mime).getD "") (pt + 1) fn hf
    with ⟨n, hcn, hge, _, _⟩
  have hmax : max 1 (pt + 1) = pt + 1 := max_eq_right (by omega)
  rw [hmax] at hge
  have hlt : pt.toNat < n := by omega
  unfold upload at h
  simp only [hc] at h
  simp only [if_true, Prod.mk.injEq, Except.ok.injEq, ite_true] at h
  obtain ⟨rfl, rfl⟩ := h
  exact ⟨rfl, n, hcn, hlt⟩

/-- Witness for `response_ponto_stale`: registro 5, ponto 2, `5-2.jpg`
occupied; the response reports ponto 2 but stores `5-3.jpg`. -/
theorem response_ponto_stale_witness :
    (⟨"http://localhost:8002/imagens/5/5-3.jpg", "image/jpeg", 1, some 5, some 2,
      "/imagens/5/5-3.jpg", "5-3.jpg"⟩ : UploadResult).ponto = some 2 ∧
    ∃ n, (⟨"http://localhost:8002/imagens/5/5-3.jpg", "image/jpeg", 1, some 5, some 2,
      "/imagens/5/5-3.jpg", "5-3.jpg"⟩ : UploadResult).filename =
        candidateName "5" n ((ALLOWED_MIMES.lookup "image/jpeg").getD "") ∧
      (2 : Int).toNat < n :=
  response_ponto_stale 25 none ctx0 ["5-2.jpg"] "u"
    ⟨"a.jpg", "data:image/jpeg;base64,AA==", some 5, some 2⟩
    "image/jpeg" [0] (some 5) 2 "5" "5-3.jpg"
    ⟨"http://localhost:8002/imagens/5/5-3.jpg", "image/jpeg", 1, some 5, some 2,
      "/imagens/5/5-3.jpg", "5-3.jpg"⟩ ["5-3.jpg", "5-2.jpg"]
    rfl (by decide) rfl

/-- C9 counterexample: the empty byte sequence is within every size limit,
but its base64 encoding is the empty string, which the regex group `.+`
rejects — the decode fails with the invalid-data-URL error instead of
returning the bytes. -/
theorem data_url_roundtrip_cex :
    parse_data_url 25 (mkDataUrl "image/png" []) = .error .invalidDataUrl ∧
    ([] : List Nat).length ≤ 25 * 1024 * 1024 := by
  exact ⟨rfl, by decide⟩

/-- C9 amended: for every nonempty byte sequence within the configured limit
(the limit at most its default of 25 MiB, so the 50 MiB raw-string pre-check
cannot fire) and every allow-listed MIME type, decoding the built data URL
succeeds and returns exactly the MIME type and the original bytes. -/
theorem data_url_roundtrip (maxMB : Nat) (m e : String) (b : List Nat)
    (hm : (m, e) ∈ ALLOWED_MIMES) (hb : ∀ x ∈ b, x < 256) (hne : b ≠ [])
    (hlen : b.length ≤ maxMB * 1024 * 1024) (hmax : maxMB ≤ 25) :
    parse_data_url maxMB (mkDataUrl m b) = .ok (m, b) := by
  simp only [ALLOWED_MIMES, List.mem_cons, List.not_mem_nil, or_false,
    Prod.mk.injEq] at hm
  rcases hm with ⟨rfl, -⟩ | ⟨rfl, -⟩ | ⟨rfl, -⟩ <;>
    exact parse_mkDataUrl maxMB _ b (by decide) (by decide) (by decide) (by decide)
      (by decide) hb hne hlen hmax

/-- Witness for `data_url_roundtrip` at `image/png` with byte `[0]`. -/
theorem data_url_roundtrip_witness :
    parse_data_url 25 (mkDataUrl "image/png" [0]) = .ok ("image/png", [0]) :=
  data_url_roundtrip 25 "image/png" "png" [0] (by decide) (by decide) (by decide)
    (by decide) (by decide)

end UploadService
